import Mathlib

/-! Shallow embedding of the document patch compiler of md-converter:
`app/converters/google_docs_converter.py` (the markdown and HTML request
builders and the first-page-header formatter) and
`app/utils/security.py` (`validate_image_url`).

Strings are modelled as `List Char` (Python strings are sequences of code
points); literals from the source appear via `chars`.  The BeautifulSoup
document of `_parse_html_to_requests` is modelled as the preorder list of
nodes the `body.descendants` chain holds before any mutation (`HtmlNode`,
with headings/paragraphs owning at most a single text child).  Because
the loop calls `child.extract()` inside the live generator, the walk that
consumes this list is version-dependent and is modelled by two
definitions: under beautifulsoup4 ≤ 4.12 the inner extraction loop
raises `AttributeError` whenever a heading/paragraph owning a text child
is followed by any further node (`walkOldAux`, `abortsOld`), and under
≥ 4.13 the cached-successor generator silently ends the walk right after
the first such block, dropping all later nodes (`truncateAtBlock`).  The
per-node emission (`htmlNodeReqs`) is common to both.  The network side of
`_create_image_request` (HTTP fetch and Drive upload) is modelled by a
`FetchOutcome` oracle carried on the image node: `ok contentType length
fileId` for a completed fetch, `err` for a raised fetch/upload exception
(covering `requests.RequestException`, `raise_for_status`, and Drive
`HttpError`, all of which the converter re-raises to its caller). -/

namespace MdSpec

def chars (s : String) : List Char := s.data

/-- Characters of the regex class backslash-s and of Python `str.strip()`
in the ASCII range (the embedding models ASCII whitespace; the source
handles arbitrary unicode whitespace identically through Python's own
tables). -/
def isPySpace (c : Char) : Bool :=
  c = ' ' || c = '\t' || c = '\n' || c = '\r' || c = '\x0b' || c = '\x0c'

/-- Python `not line.strip()`: the line is empty or whitespace-only. -/
def isBlankLine (l : List Char) : Bool := l.all isPySpace

/-- Python `text.split(d)` for a one-character separator: always returns at
least one (possibly empty) part. -/
def splitOnC (d : Char) : List Char → List (List Char)
  | [] => [[]]
  | c :: rest =>
    let r := splitOnC d rest
    if c = d then [] :: r
    else
      match r with
      | [] => [[c]]
      | h :: t => (c :: h) :: t

/-- Length of the longest prefix whose characters all satisfy `p`. -/
def leadCount (p : Char → Bool) : List Char → Nat
  | [] => 0
  | c :: rest => if p c then leadCount p rest + 1 else 0

/-- Embeds `re.match(r'^(#{1,6})\s+(.+)$', line)` from
`_parse_markdown_to_requests`.  The hash run must have length 1..6 (a
seventh leading hash makes every backtracking choice of `#{1,6}` be
followed by a non-whitespace `#`, so the match fails).  After the hashes,
greedy `\s+` takes the maximal whitespace run; `(.+)$` then needs at least
one character: if text remains after the whitespace it is group 2 whole,
otherwise the engine gives one whitespace character back to `.+` (possible
only when the run has length at least 2) and group 2 is that single final
whitespace character. -/
def headingMatch (l : List Char) : Option (Nat × List Char) :=
  let m := leadCount (fun c => c = '#') l
  if 1 ≤ m ∧ m ≤ 6 then
    let r1 := l.drop m
    let w := leadCount isPySpace r1
    if w = 0 then none
    else if r1.drop w ≠ [] then some (m, r1.drop w)
    else if 2 ≤ w then some (m, r1.drop (w - 1))
    else none
  else none

/-- First position `j2` at or after `j` with `s[j2] = d` and `s[j2+1] = d`;
returns the exclusive end `j2 + 2`.  This is the lazy `(.+?)` search for
the closing double delimiter of `\*\*(.+?)\*\*` / `__(.+?)__`. -/
def findDouble (s : List Char) (d : Char) : Nat → Nat → Option Nat
  | 0, _ => none
  | fuel + 1, j =>
    if s.get? j = some d ∧ s.get? (j + 1) = some d then some (j + 2)
    else findDouble s d fuel (j + 1)

/-- Tries the bold alternation `\*\*(.+?)\*\*|__(.+?)__` at position `i`;
returns the exclusive end of the match.  The lazy group needs at least one
character, so the closing pair is searched from `i + 3`. -/
def boldAt (s : List Char) (i : Nat) : Option Nat :=
  if s.get? i = some '*' ∧ s.get? (i + 1) = some '*' then
    findDouble s '*' (s.length + 1) (i + 3)
  else if s.get? i = some '_' ∧ s.get? (i + 1) = some '_' then
    findDouble s '_' (s.length + 1) (i + 3)
  else none

/-- First position `j2` at or after `j` with `s[j2] = d` (stops at the end
of the string). -/
def firstDelim (s : List Char) (d : Char) : Nat → Nat → Option Nat
  | 0, _ => none
  | fuel + 1, j =>
    match s.get? j with
    | none => none
    | some c => if c = d then some j else firstDelim s d fuel (j + 1)

/-- Tries the italic alternation
`(?<!\*)\*([^*]+?)\*(?!\*)|(?<!_)_([^_]+?)_(?!_)` at position `i`.  The
content class `[^*]+?` (resp. `[^_]+?`) cannot cross a delimiter, so the
closing delimiter is forced to be the first occurrence after `i`; it must
leave at least one content character (`i + 2 ≤ j`) and pass the negative
lookahead, with no backtracking alternative when it does not. -/
def italAt (s : List Char) (i : Nat) : Option Nat :=
  if s.get? i = some '*' ∧ (i = 0 ∨ ¬ s.get? (i - 1) = some '*') then
    match firstDelim s '*' (s.length + 1) (i + 1) with
    | some j => if i + 2 ≤ j ∧ ¬ s.get? (j + 1) = some '*' then some (j + 1) else none
    | none => none
  else if s.get? i = some '_' ∧ (i = 0 ∨ ¬ s.get? (i - 1) = some '_') then
    match firstDelim s '_' (s.length + 1) (i + 1) with
    | some j => if i + 2 ≤ j ∧ ¬ s.get? (j + 1) = some '_' then some (j + 1) else none
    | none => none
  else none

/-- `re.finditer` driver: scan positions left to right, on a match record
`(start, end)` and resume at `end`, otherwise advance one position. -/
def scanWith (f : Nat → Option Nat) (stop : Nat) : Nat → Nat → List (Nat × Nat)
  | 0, _ => []
  | fuel + 1, i =>
    if stop ≤ i then []
    else
      match f i with
      | some e => (i, e) :: scanWith f stop fuel e
      | none => scanWith f stop fuel (i + 1)

/-- All matches of `re.finditer(r'\*\*(.+?)\*\*|__(.+?)__', line)` as
half-open `(start, end)` offset pairs into the line. -/
def boldMatches (s : List Char) : List (Nat × Nat) :=
  scanWith (boldAt s) s.length (s.length + 1) 0

/-- All matches of the italic `re.finditer` pattern as half-open
`(start, end)` offset pairs into the line. -/
def italicMatches (s : List Char) : List (Nat × Nat) :=
  scanWith (italAt s) s.length (s.length + 1) 0

inductive InlineKind
  | bold
  | italic
deriving DecidableEq

/-- The Google Docs batchUpdate request dicts built by the converter,
restricted to the fields the builders set.  `updateTextStyle` with
`InlineKind.bold` stands for `textStyle.bold = True, fields = 'bold'`, with
`InlineKind.italic` for the italic counterpart. -/
inductive Req
  | insertText (index : Nat) (text : List Char)
  | updateParagraphStyle (startIndex endIndex : Nat) (namedStyleType : List Char)
  | updateTextStyle (startIndex endIndex : Nat) (kind : InlineKind)
  | insertInlineImage (index : Nat) (uri : List Char)
deriving DecidableEq

/-- Python `f'HEADING_{level}' if level <= 6 else 'HEADING_6'`. -/
def headingName (lvl : Nat) : List Char :=
  if lvl ≤ 6 then chars "HEADING_" ++ (toString lvl).data else chars "HEADING_6"

def styleReqs (c : Nat) (k : InlineKind) (ms : List (Nat × Nat)) : List Req :=
  ms.map (fun m => Req.updateTextStyle (c + m.1) (c + m.2) k)

/-- One iteration of the line loop of `_parse_markdown_to_requests`: the
requests it appends and the updated `current_index`. -/
def markdownLineReqs (l : List Char) (c : Nat) : List Req × Nat :=
  if isBlankLine l then ([Req.insertText c ['\n']], c + 1)
  else
    match headingMatch l with
    | some (lvl, rem) =>
      let t := rem ++ ['\n']
      ([Req.insertText c t,
        Req.updateParagraphStyle c (c + t.length - 1) (headingName lvl)], c + t.length)
    | none =>
      let t := l ++ ['\n']
      (Req.insertText c t ::
        (styleReqs c InlineKind.bold (boldMatches l) ++
          styleReqs c InlineKind.italic (italicMatches l)),
       c + t.length)

/-- The request-accumulating loop shared by both builders: run `step` on
each item, threading `current_index`. -/
def runFold {α : Type} (step : α → Nat → List Req × Nat) : List α → Nat → List Req × Nat
  | [], c => ([], c)
  | a :: rest, c =>
    let p := step a c
    let q := runFold step rest p.2
    (p.1 ++ q.1, q.2)

def mdRun : List (List Char) → Nat → List Req × Nat := runFold markdownLineReqs

/-- `_parse_markdown_to_requests(text, start_index)`: split on newlines and
run the line loop.  (The Python function then returns the bare request
list; when it holds exactly one request it returns that dict alone, and the
caller `_build_requests` repacks it into a list — the emitted command
sequence is unchanged.  Its trailing `if not requests` fallback is dead
code: `split('\n')` yields at least one line and every line appends at
least one request, see `mdRun_ne_nil`.) -/
def parse_markdown_to_requests (text : List Char) (start : Nat) : List Req × Nat :=
  mdRun (splitOnC '\n' text) start

/-- Does `s` start with `pat`? (Python `str.startswith`.) -/
def startsWithL : List Char → List Char → Bool
  | _, [] => true
  | [], _ :: _ => false
  | c :: rest, p :: ps => c = p && startsWithL rest ps

/-- Does `s` contain `pat` as a contiguous substring? (Python `pat in s`.) -/
def containsSub (pat : List Char) : List Char → Bool
  | [] => startsWithL [] pat
  | c :: rest => startsWithL (c :: rest) pat || containsSub pat rest

/-! Model of the parts of `urllib.parse.urlparse` that
`validate_image_url` consults (`scheme`, `hostname`), following CPython
3.11 `urlsplit`/`_hostinfo`: the URL is first stripped of leading C0
control or space characters and of every tab, CR and LF; a scheme is
recognised when a `:` occurs after a nonempty ASCII-letter-led run of
scheme characters; the netloc is read after `//` up to the first `/`, `?`
or `#`; a netloc with an unmatched square bracket raises `ValueError`
(modelled as `none`, which `validate_image_url` catches and maps to
`False`); the hostname is the lowercased part of the netloc after the
last `@`, inside the first bracket pair if one opens, else before the
first `:`, and an empty hostname is `None`. -/

def lstripC0 (u : List Char) : List Char := u.dropWhile (fun c => c.toNat ≤ 32)

def removeTabNl (u : List Char) : List Char :=
  u.filter (fun c => ¬ (c = '\t' ∨ c = '\r' ∨ c = '\n'))

def isSchemeChar (c : Char) : Bool := c.isAlpha || c.isDigit || c = '+' || c = '-' || c = '.'

def findCharIdx (d : Char) : List Char → Option Nat
  | [] => none
  | c :: rest => if c = d then some 0 else (findCharIdx d rest).map (· + 1)

def schemeSplit (u : List Char) : List Char × List Char :=
  match findCharIdx ':' u with
  | some i =>
    if 0 < i ∧ (u.take i).all isSchemeChar ∧ (u.head?.map Char.isAlpha).getD false then
      ((u.take i).map Char.toLower, u.drop (i + 1))
    else ([], u)
  | none => ([], u)

def netlocOf (u : List Char) : List Char :=
  if u.take 2 = ['/', '/'] then
    (u.drop 2).takeWhile (fun c => ¬ (c = '/' ∨ c = '?' ∨ c = '#'))
  else []

/-- `urlparse(url)` reduced to `(scheme, netloc)`; `none` models the
`ValueError` CPython 3.11 raises on any bracketed netloc that is not a
valid IPv6/IPvFuture literal: an unmatched bracket raises `Invalid IPv6
URL`, and `_check_bracketed_host` raises for every matched bracket pair
whose content is not an IPv6/IPvFuture address.  Model restriction: IPv6
literals are outside the model, so every netloc containing a bracket is
mapped to the `ValueError` path (which `validate_image_url` catches and
turns into `False`; the real code additionally accepts bracketed global
IPv6 literals). -/
def urlsplitModel (url : List Char) : Option (List Char × List Char) :=
  let u := removeTabNl (lstripC0 url)
  let sr := schemeSplit u
  let nl := netlocOf sr.2
  if nl.contains '[' ∨ nl.contains ']' then none
  else some (sr.1, nl)

def afterLastAt (nl : List Char) : List Char :=
  (nl.reverse.takeWhile (fun c => ¬ c = '@')).reverse

/-- `parsed.hostname`: lowercased host part of the netloc, `none` when
empty. -/
def hostnameOfNetloc (nl : List Char) : Option (List Char) :=
  let hi := afterLastAt nl
  let host :=
    if hi.contains '[' then
      ((hi.dropWhile (fun c => ¬ c = '[')).drop 1).takeWhile (fun c => ¬ c = ']')
    else hi.takeWhile (fun c => ¬ c = ':')
  if host = [] then none else some (host.map Char.toLower)

/-- Hostname of a URL through the modelled parse (for stating claims). -/
def urlHostname (url : List Char) : Option (List Char) :=
  match urlsplitModel url with
  | none => none
  | some p => hostnameOfNetloc p.2

def digitsToNat (l : List Char) : Nat := l.foldl (fun n c => n * 10 + (c.toNat - 48)) 0

/-- One dotted-quad octet per CPython `ipaddress._parse_octet`: 1–3 ASCII
digits, no leading zero, value at most 255. -/
def parseOctet (l : List Char) : Option Nat :=
  if l = [] then none
  else if ¬ l.all Char.isDigit then none
  else if 3 < l.length then none
  else if 1 < l.length ∧ l.head? = some '0' then none
  else if digitsToNat l ≤ 255 then some (digitsToNat l) else none

/-- `ipaddress.ip_address(hostname)` restricted to IPv4 dotted-quad form.
Model restriction: IPv6 literal hosts (which CPython would also parse) are
treated as unparseable names. -/
def parseIPv4 (h : List Char) : Option (Nat × Nat × Nat × Nat) :=
  match splitOnC '.' h with
  | [a, b, c, d] =>
    match parseOctet a, parseOctet b, parseOctet c, parseOctet d with
    | some x, some y, some z, some w => some (x, y, z, w)
    | _, _, _, _ => none
  | _ => none

/-- CPython `IPv4Address.is_private` (the union of the private-use
networks table). -/
def ipv4Private : Nat × Nat × Nat × Nat → Bool
  | (a, b, c, d) =>
    decide (a = 0 ∨ a = 10 ∨ a = 127 ∨
      (a = 169 ∧ b = 254) ∨
      (a = 172 ∧ 16 ≤ b ∧ b ≤ 31) ∨
      (a = 192 ∧ b = 0 ∧ c = 0 ∧ d ≤ 7) ∨
      (a = 192 ∧ b = 0 ∧ c = 0 ∧ (d = 170 ∨ d = 171)) ∨
      (a = 192 ∧ b = 0 ∧ c = 2) ∨
      (a = 192 ∧ b = 168) ∨
      (a = 198 ∧ (b = 18 ∨ b = 19)) ∨
      (a = 198 ∧ b = 51 ∧ c = 100) ∨
      (a = 203 ∧ b = 0 ∧ c = 113) ∨
      240 ≤ a)

/-- CPython `IPv4Address.is_loopback` (127.0.0.0/8). -/
def ipv4Loopback : Nat × Nat × Nat × Nat → Bool
  | (a, _, _, _) => decide (a = 127)

/-- CPython `IPv4Address.is_link_local` (169.254.0.0/16). -/
def ipv4LinkLocal : Nat × Nat × Nat × Nat → Bool
  | (a, b, _, _) => decide (a = 169 ∧ b = 254)

/-- CPython `IPv4Address.is_reserved` (240.0.0.0/4). -/
def ipv4Reserved : Nat × Nat × Nat × Nat → Bool
  | (a, _, _, _) => decide (240 ≤ a)

def blockedHostnames : List (List Char) :=
  [chars "metadata.google.internal", chars "metadata", chars "instance-data"]

/-- `app/utils/security.py` `validate_image_url(url)`.  Everything after
the data-URI early return sits in a `try` whose `except` returns `False`;
the only modelled exception is the urlsplit bracket `ValueError`. -/
def validate_image_url (url : List Char) : Bool :=
  if url = [] then false
  else if startsWithL url (chars "data:image/") then true
  else
    match urlsplitModel url with
    | none => false
    | some p =>
      if ¬ (p.1 = chars "http" ∨ p.1 = chars "https") then false
      else
        match hostnameOfNetloc p.2 with
        | none => false
        | some h =>
          if h = chars "localhost" ∨ h = chars "localhost.localdomain" then false
          else
            match parseIPv4 h with
            | some ip =>
              if ipv4Private ip then false
              else if ipv4Loopback ip then false
              else if ipv4LinkLocal ip then false
              else if ipv4Reserved ip then false
              else if blockedHostnames.any (fun b => containsSub b h) then false
              else true
            | none =>
              if blockedHostnames.any (fun b => containsSub b h) then false
              else true

/-- Outcome of the network side of `_create_image_request`: a completed
HTTP fetch with its final content type (defaulted to `image/png` when the
header is absent), body length and the Drive file id the upload would
yield, or a raised fetch/upload exception. -/
inductive FetchOutcome
  | ok (contentType : List Char) (contentLength : Nat) (fileId : List Char)
  | err
deriving DecidableEq

/-- A node of the parsed document in document (preorder) order, as the
`body.descendants` generator of `_parse_html_to_requests` would yield it.
`heading lvl t` / `para t` stand for an `h1`..`h6` / `p` element whose
children are exactly one text node `t` (no children when `t = []`, as
`html.parser` creates no empty text nodes).  `other` is any element the
loop has no branch for (`div`, `span`, ...); its own text children appear
as separate `textNode` items after it.  Model restriction: nested markup
inside a heading or paragraph (element children such as `<b>`) is outside
the model.  The list holds the chain of nodes before any mutation; the
walk definitions below reproduce what the live generator actually yields
once the `h`/`p` branches start extracting children mid-iteration. -/
inductive HtmlNode
  | heading (level : Nat) (text : List Char)
  | para (text : List Char)
  | img (src : Option (List Char)) (fetch : FetchOutcome)
  | br
  | textNode (s : List Char)
  | other
deriving DecidableEq

def driveUri (fileId : List Char) : List Char :=
  chars "https://drive.google.com/uc?id=" ++ fileId

/-- `_create_image_request(image_url, index)`: `Except.error` models the
re-raised fetch/upload exception, `Except.ok none` the `return None`
paths (SSRF-rejected URL, non-image content type, body over 10 MiB). -/
def createImageRequest (url : List Char) (fetch : FetchOutcome) (index : Nat) :
    Except Unit (Option Req) :=
  if ¬ validate_image_url url then Except.ok none
  else
    match fetch with
    | FetchOutcome.err => Except.error ()
    | FetchOutcome.ok ct len fid =>
      if ¬ startsWithL ct (chars "image/") then Except.ok none
      else if 10 * 1024 * 1024 < len then Except.ok none
      else Except.ok (some (Req.insertInlineImage index (driveUri fid)))

/-- Python `f"[Image: {img_url}]\n"`. -/
def imagePlaceholder (url : List Char) : List Char :=
  chars "[Image: " ++ url ++ chars "]\n"

/-- One iteration of the descendants loop of `_parse_html_to_requests`:
whitespace-only text nodes are skipped, other text nodes and unhandled
elements match no branch and produce nothing; the `img` branch runs only
for a truthy `src`; an exception from `_create_image_request` yields the
placeholder insert, a `None` result yields nothing. -/
def htmlNodeReqs (n : HtmlNode) (c : Nat) : List Req × Nat :=
  match n with
  | HtmlNode.textNode _ => ([], c)
  | HtmlNode.other => ([], c)
  | HtmlNode.heading lvl t =>
    let tt := t ++ ['\n']
    ([Req.insertText c tt,
      Req.updateParagraphStyle c (c + tt.length - 1) (headingName lvl)], c + tt.length)
  | HtmlNode.para t =>
    let tt := t ++ ['\n']
    ([Req.insertText c tt], c + tt.length)
  | HtmlNode.img none _ => ([], c)
  | HtmlNode.img (some url) fetch =>
    if url = [] then ([], c)
    else
      match createImageRequest url fetch c with
      | Except.ok (some r) => ([r], c + 1)
      | Except.ok none => ([], c)
      | Except.error _ =>
        let ph := imagePlaceholder url
        ([Req.insertText c ph], c + ph.length)
  | HtmlNode.br => ([Req.insertText c ['\n']], c + 1)

def htmlRun : List HtmlNode → Nat → List Req × Nat := runFold htmlNodeReqs

/-- Text content a node contributes to `body.get_text()`. -/
def nodeText : HtmlNode → List Char
  | HtmlNode.heading _ t => t
  | HtmlNode.para t => t
  | HtmlNode.textNode s => s
  | _ => []

/-- A heading or paragraph element that owns a text child — the only
nodes whose branch extracts children from the live `body.descendants`
generator. -/
def isTextBlock : HtmlNode → Bool
  | HtmlNode.heading _ t => !t.isEmpty
  | HtmlNode.para t => !t.isEmpty
  | _ => false

/-- The sequence of chain nodes the bs4 ≥ 4.13 `descendants` generator
visits.  That generator caches `successor = current.next_element` before
each `yield`; after the `h`/`p` branch extracts the element's text child,
the cached successor is that (now detached) child, whose `next_element`
the extraction nulled — so the generator yields the detached text node
(which emits nothing) and then stops.  Effect: the walk ends right after
the first heading/paragraph that owns a text child, dropping every later
node. -/
def truncateAtBlock : List HtmlNode → List HtmlNode
  | [] => []
  | n :: rest => if isTextBlock n then [n] else n :: truncateAtBlock rest

/-- `_parse_html_to_requests(html_content, start_index)` under
beautifulsoup4 ≥ 4.13: the walk over the nodes the generator actually
visits (`truncateAtBlock`), then the fallback — when the walk produced no
request (possible only when no heading/paragraph exists, so nothing was
truncated or extracted) and the flattened body text is non-blank, a
single `insertText` at the literal index 1 is appended without advancing
`current_index`.  The pair's second component is the final value of the
`current_index` variable. -/
def parse_html_to_requests (ns : List HtmlNode) (start : Nat) : List Req × Nat :=
  let p := htmlRun (truncateAtBlock ns) start
  if p.1 = [] then
    let t := (ns.map nodeText).flatten
    if isBlankLine t then ([], p.2) else ([Req.insertText 1 t], p.2)
  else p

/-- The walk of `_parse_html_to_requests` under beautifulsoup4 ≤ 4.12,
whose `descendants` generator computes `current = current.next_element`
only after the consumer's body ran.  The outer walk then survives the
extraction, but the inner `for child in element.descendants` loop does
not: its `stopNode` (the node after the element's subtree) is captured
before any extraction, and extracting the text child nulls that child's
`next_element`, so when any node follows the element the inner generator
steps from the extracted child to `None` without reaching `stopNode`,
yields `None`, and `None.extract()` raises `AttributeError` — aborting
the whole build (`Except.error`).  When the element is the last node,
`stopNode` is `None` and the walk completes. -/
def walkOldAux : List HtmlNode → Nat → Except Unit (List Req × Nat)
  | [], c => Except.ok ([], c)
  | n :: rest, c =>
    let p := htmlNodeReqs n c
    if isTextBlock n then
      if rest = [] then Except.ok (p.1, p.2)
      else Except.error ()
    else
      match walkOldAux rest p.2 with
      | Except.ok q => Except.ok (p.1 ++ q.1, q.2)
      | Except.error e => Except.error e

/-- `_parse_html_to_requests` under beautifulsoup4 ≤ 4.12: the walk, then
the fallback, or the propagated `AttributeError` (which `convert_html`
turns into a `GoogleDocsConversionError`, aborting the conversion). -/
def parse_html_to_requests_old (ns : List HtmlNode) (start : Nat) :
    Except Unit (List Req × Nat) :=
  match walkOldAux ns start with
  | Except.error e => Except.error e
  | Except.ok p =>
    if p.1 = [] then
      let t := (ns.map nodeText).flatten
      Except.ok (if isBlankLine t then ([], p.2) else ([Req.insertText 1 t], p.2))
    else Except.ok p

/-- Does the bs4 ≤ 4.12 walk raise: true exactly when the first
heading/paragraph owning a text child is followed by at least one more
node. -/
def abortsOld : List HtmlNode → Bool
  | [] => false
  | n :: rest => if isTextBlock n then !rest.isEmpty else abortsOld rest


/-! Front-matter header: `_format_front_matter_for_header` and the request
list built by `_create_first_page_header` after the `createHeader` call
(the header segment id is implicit in `HReq`). -/

/-- Scalar front-matter values as they reach `str(v)` inside a list. -/
inductive Atom
  | aStr (s : List Char)
  | aInt (n : Int)
  | aDate (y m d : Nat)
deriving DecidableEq

/-- Front-matter values: strings, ints, `date`-like values (anything with
`strftime`), and flat lists of scalars. -/
inductive Value
  | vStr (s : List Char)
  | vInt (n : Int)
  | vDate (y m d : Nat)
  | vList (xs : List Atom)
deriving DecidableEq

def padNum (width n : Nat) : List Char :=
  let d := (toString n).data
  List.replicate (width - d.length) '0' ++ d

/-- `value.strftime('%Y-%m-%d')`. -/
def isoDate (y m d : Nat) : List Char :=
  padNum 4 y ++ ['-'] ++ padNum 2 m ++ ['-'] ++ padNum 2 d

/-- Python `str(v)` on a scalar. -/
def atomStr : Atom → List Char
  | Atom.aStr s => s
  | Atom.aInt n => (toString n).data
  | Atom.aDate y m d => isoDate y m d

/-- The `value_str` computation: lists joined with `", "`, `strftime`
values as `YYYY-MM-DD`, anything else through `str`. -/
def renderValue : Value → List Char
  | Value.vList xs => List.intercalate (chars ", ") (xs.map atomStr)
  | Value.vDate y m d => isoDate y m d
  | Value.vStr s => s
  | Value.vInt n => (toString n).data

def titleCaseGo : Bool → List Char → List Char
  | _, [] => []
  | prevCased, c :: rest =>
    if c.isAlpha then
      (if prevCased then c.toLower else c.toUpper) :: titleCaseGo true rest
    else c :: titleCaseGo false rest

/-- `key.replace('_', ' ').title()` (ASCII letters modelled as the cased
characters). -/
def titleizeKey (k : List Char) : List Char :=
  titleCaseGo false (k.map (fun c => if c = '_' then ' ' else c))

/-- `'title' in metadata` / `metadata['title']` on the insertion-ordered
mapping (a Python dict has unique keys, so the first hit is the value). -/
def findTitle (md : List (List Char × Value)) : Option Value :=
  (md.find? (fun kv => kv.1 = chars "title")).map (·.2)

def metaLine (kv : List Char × Value) : List Char :=
  titleizeKey kv.1 ++ chars ": " ++ renderValue kv.2

/-- The `lines` list of `_format_front_matter_for_header`: the raw title
value first when present, then one rendered line per non-title key in
insertion order.  The title value is appended unconverted, so a non-string
title makes the final `'\n'.join(lines)` raise `TypeError` (modelled as
`none`; that exception would escape `_create_first_page_header`). -/
def headerLines (md : List (List Char × Value)) : Option (List (List Char)) :=
  let rest := (md.filter (fun kv => ¬ kv.1 = chars "title")).map metaLine
  match findTitle md with
  | some (Value.vStr s) => some (s :: rest)
  | some _ => none
  | none => some rest

/-- `_format_front_matter_for_header(metadata)`. -/
def format_front_matter_for_header (md : List (List Char × Value)) : Option (List Char) :=
  (headerLines md).map (List.intercalate ['\n'])

/-- Header-segment requests (`segmentId` implicit); the style request
stands for `updateTextStyle` with `fontSize` of the given magnitude in PT
and `fields = 'fontSize'`. -/
inductive HReq
  | insertText (index : Nat) (text : List Char)
  | updateTextStyleFontSize (startIndex endIndex magnitudePt : Nat)
deriving DecidableEq

/-- The `insert_requests` list built by `_create_first_page_header`: one
`insertText` of the whole header text at index 0, then the whole-header
font-size style exactly when the text is nonempty. -/
def create_first_page_header_reqs (md : List (List Char × Value)) : Option (List HReq) :=
  (format_front_matter_for_header md).map (fun t =>
    [HReq.insertText 0 t] ++
      (if 0 < t.length then [HReq.updateTextStyleFontSize 0 t.length 10] else []))

/-! Observables used by the claims. -/

/-- Total inserted length of a request list: `insertText` counts its text
length, a successful `insertInlineImage` counts 1, style requests count 0. -/
def insertedLen : List Req → Nat
  | [] => 0
  | Req.insertText _ t :: rs => t.length + insertedLen rs
  | Req.insertInlineImage _ _ :: rs => 1 + insertedLen rs
  | Req.updateParagraphStyle _ _ _ :: rs => insertedLen rs
  | Req.updateTextStyle _ _ _ :: rs => insertedLen rs

/-- Concatenation of all inserted texts in emission order. -/
def insertedText : List Req → List Char
  | [] => []
  | Req.insertText _ t :: rs => t ++ insertedText rs
  | _ :: rs => insertedText rs

def styleRange : Req → Option (Nat × Nat)
  | Req.updateParagraphStyle s e _ => some (s, e)
  | Req.updateTextStyle s e _ => some (s, e)
  | _ => none

/-- Linear scan checking that every style request's range starts at or
after the segment origin and ends at or before origin plus everything
inserted by the requests preceding it (each style's own insert precedes
it, so this is exactly "no style references an index not yet inserted when
it is emitted"). -/
def stylesOkAux (origin : Nat) : List Req → Nat → Bool
  | [], _ => true
  | Req.insertText _ t :: rs, n => stylesOkAux origin rs (n + t.length)
  | Req.insertInlineImage _ _ :: rs, n => stylesOkAux origin rs (n + 1)
  | Req.updateParagraphStyle s e _ :: rs, n =>
    decide (origin ≤ s ∧ e ≤ origin + n) && stylesOkAux origin rs n
  | Req.updateTextStyle s e _ :: rs, n =>
    decide (origin ≤ s ∧ e ≤ origin + n) && stylesOkAux origin rs n

def stylesOk (origin : Nat) (rs : List Req) : Bool := stylesOkAux origin rs 0

/-- Bound check of a single style request against the cursor before the
step (`c`) and the cursor right after the step's insert (`c2`). -/
def styleWithin (c c2 : Nat) (r : Req) : Bool :=
  match styleRange r with
  | some se => decide (c ≤ se.1 ∧ se.2 ≤ c2)
  | none => true

/-- Style-range check lifted over the beautifulsoup4 ≤ 4.12 walk's
possible `AttributeError` (a raised build emits nothing, so there is
nothing to check). -/
def stylesOkE (origin : Nat) : Except Unit (List Req × Nat) → Bool
  | Except.error _ => true
  | Except.ok p => stylesOk origin p.1

/-- Same linear scan for the header segment (origin 0). -/
def hStylesOkAux : List HReq → Nat → Bool
  | [], _ => true
  | HReq.insertText _ t :: rs, n => hStylesOkAux rs (n + t.length)
  | HReq.updateTextStyleFontSize _ e _ :: rs, n => decide (e ≤ n) && hStylesOkAux rs n

def headerReqsOk : Option (List HReq) → Bool
  | none => true
  | some rs => hStylesOkAux rs 0

/-! Supporting lemmas. -/

theorem get?_lt_length {α : Type} {s : List α} {j : Nat} {c : α} (h : s.get? j = some c) :
    j < s.length := by
  by_contra hn
  rw [List.get?_eq_none.mpr (Nat.le_of_not_lt hn)] at h
  exact Option.noConfusion h

theorem findDouble_spec {s : List Char} {d : Char} :
    ∀ fuel j e, findDouble s d fuel j = some e → j + 2 ≤ e ∧ e ≤ s.length := by
  intro fuel
  induction fuel with
  | zero => intro j e h; simp [findDouble] at h
  | succ n ih =>
    intro j e h
    unfold findDouble at h
    split at h
    · rename_i hc
      obtain rfl : j + 2 = e := by injection h
      exact ⟨Nat.le_refl _, get?_lt_length hc.2⟩
    · have := ih (j + 1) e h
      omega

theorem boldAt_spec {s : List Char} {i e : Nat} (h : boldAt s i = some e) :
    i < e ∧ e ≤ s.length := by
  unfold boldAt at h
  split at h
  · have := findDouble_spec (s := s) (d := '*') (s.length + 1) (i + 3) e h
    omega
  · split at h
    · have := findDouble_spec (s := s) (d := '_') (s.length + 1) (i + 3) e h
      omega
    · exact Option.noConfusion h

theorem firstDelim_spec {s : List Char} {d : Char} :
    ∀ fuel j j2, firstDelim s d fuel j = some j2 → j ≤ j2 ∧ s.get? j2 = some d := by
  intro fuel
  induction fuel with
  | zero => intro j j2 h; simp [firstDelim] at h
  | succ n ih =>
    intro j j2 h
    unfold firstDelim at h
    split at h
    · exact Option.noConfusion h
    · rename_i c hg
      split at h
      · rename_i hc
        obtain rfl : j = j2 := by injection h
        exact ⟨Nat.le_refl _, by rw [hg, hc]⟩
      · have := ih (j + 1) j2 h
        exact ⟨by omega, this.2⟩

theorem italAt_spec {s : List Char} {i e : Nat} (h : italAt s i = some e) :
    i < e ∧ e ≤ s.length := by
  unfold italAt at h
  split at h
  · split at h
    · rename_i j hfd
      split at h
      · rename_i hj
        obtain rfl : j + 1 = e := by injection h
        have := firstDelim_spec (s := s) (d := '*') (s.length + 1) (i + 1) j hfd
        have := get?_lt_length this.2
        omega
      · exact Option.noConfusion h
    · exact Option.noConfusion h
  · split at h
    · split at h
      · rename_i j hfd
        split at h
        · rename_i hj
          obtain rfl : j + 1 = e := by injection h
          have := firstDelim_spec (s := s) (d := '_') (s.length + 1) (i + 1) j hfd
          have := get?_lt_length this.2
          omega
        · exact Option.noConfusion h
      · exact Option.noConfusion h
    · exact Option.noConfusion h

theorem scanWith_mem_bounds {f : Nat → Option Nat} {stop : Nat}
    (hf : ∀ i e, f i = some e → i < e ∧ e ≤ stop) :
    ∀ fuel i m, m ∈ scanWith f stop fuel i → i ≤ m.1 ∧ m.1 < m.2 ∧ m.2 ≤ stop := by
  intro fuel
  induction fuel with
  | zero => intro i m hm; simp [scanWith] at hm
  | succ n ih =>
    intro i m hm
    unfold scanWith at hm
    split at hm
    · simp at hm
    · split at hm
      · rename_i e heq
        rcases List.mem_cons.mp hm with rfl | hm2
        · exact ⟨Nat.le_refl _, (hf i e heq).1, (hf i e heq).2⟩
        · have h2 := ih e m hm2
          have he := hf i e heq
          exact ⟨Nat.le_trans (Nat.le_of_lt he.1) h2.1, h2.2.1, h2.2.2⟩
      · have h2 := ih (i + 1) m hm
        exact ⟨by omega, h2.2.1, h2.2.2⟩

theorem scanWith_pairwise {f : Nat → Option Nat} {stop : Nat}
    (hf : ∀ i e, f i = some e → i < e ∧ e ≤ stop) :
    ∀ fuel i, List.Pairwise (fun a b : Nat × Nat => a.2 ≤ b.1) (scanWith f stop fuel i) := by
  intro fuel
  induction fuel with
  | zero => intro i; simp [scanWith]
  | succ n ih =>
    intro i
    unfold scanWith
    split
    · exact List.Pairwise.nil
    · split
      · rename_i e heq
        refine List.Pairwise.cons ?_ (ih e)
        intro b hb
        exact (scanWith_mem_bounds hf n e b hb).1
      · exact ih (i + 1)

theorem boldMatches_bounds {s : List Char} :
    ∀ m ∈ boldMatches s, m.1 < m.2 ∧ m.2 ≤ s.length := by
  intro m hm
  have := scanWith_mem_bounds (fun i e h => boldAt_spec h) (s.length + 1) 0 m hm
  exact ⟨this.2.1, this.2.2⟩

theorem italicMatches_bounds {s : List Char} :
    ∀ m ∈ italicMatches s, m.1 < m.2 ∧ m.2 ≤ s.length := by
  intro m hm
  have := scanWith_mem_bounds (fun i e h => italAt_spec h) (s.length + 1) 0 m hm
  exact ⟨this.2.1, this.2.2⟩

theorem insertedLen_append (xs ys : List Req) :
    insertedLen (xs ++ ys) = insertedLen xs + insertedLen ys := by
  induction xs with
  | nil => simp [insertedLen]
  | cons r rs ih => cases r <;> simp [insertedLen, ih] <;> omega

theorem insertedLen_styleReqs (c : Nat) (k : InlineKind) (ms : List (Nat × Nat)) :
    insertedLen (styleReqs c k ms) = 0 := by
  induction ms with
  | nil => simp [styleReqs, insertedLen]
  | cons m rest ih => simpa [styleReqs, insertedLen] using ih

theorem stylesOkAux_append (xs ys : List Req) (o : Nat) :
    ∀ n, stylesOkAux o (xs ++ ys) n =
      (stylesOkAux o xs n && stylesOkAux o ys (n + insertedLen xs)) := by
  induction xs with
  | nil => intro n; simp [stylesOkAux, insertedLen]
  | cons r rs ih =>
    intro n
    cases r <;> simp [stylesOkAux, insertedLen, ih, Nat.add_assoc, Bool.and_assoc]

theorem stylesOkAux_styleReqs {o c n L : Nat} (k : InlineKind) {ms : List (Nat × Nat)}
    (hms : ∀ m ∈ ms, m.2 ≤ L) (hc : o ≤ c) (hn : c + L ≤ o + n) :
    stylesOkAux o (styleReqs c k ms) n = true := by
  induction ms with
  | nil => simp [styleReqs, stylesOkAux]
  | cons m rest ih =>
    have h1 := hms m (List.mem_cons_self m rest)
    have h2 : stylesOkAux o (styleReqs c k rest) n = true :=
      ih (fun x hx => hms x (List.mem_cons_of_mem m hx))
    simp only [styleReqs, List.map_cons, stylesOkAux] at h2 ⊢
    rw [h2]
    simp only [Bool.and_true, decide_eq_true_eq]
    omega

theorem styleReqs_all_within {c c2 L : Nat} (k : InlineKind) {ms : List (Nat × Nat)}
    (hms : ∀ m ∈ ms, m.2 ≤ L) (hn : c + L ≤ c2) :
    (styleReqs c k ms).all (styleWithin c c2) = true := by
  induction ms with
  | nil => simp [styleReqs]
  | cons m rest ih =>
    have h1 := hms m (List.mem_cons_self m rest)
    have h2 := ih (fun x hx => hms x (List.mem_cons_of_mem m hx))
    simp only [styleReqs, List.map_cons, List.all_cons] at h2 ⊢
    rw [h2]
    simp only [Bool.and_true, styleWithin, styleRange, decide_eq_true_eq]
    omega

theorem mdStep_cursor (l : List Char) (c : Nat) :
    (markdownLineReqs l c).2 = c + insertedLen (markdownLineReqs l c).1 := by
  unfold markdownLineReqs
  split
  · simp [insertedLen]
  · split
    · simp [insertedLen]
    · simp [insertedLen, insertedLen_append, insertedLen_styleReqs]

theorem mdStep_stylesOk (l : List Char) (o n : Nat) :
    stylesOkAux o (markdownLineReqs l (o + n)).1 n = true := by
  unfold markdownLineReqs
  split
  · simp [stylesOkAux]
  · split
    · rename_i p
      simp only [stylesOkAux, List.length_append, List.length_cons, List.length_nil,
        Bool.and_true, decide_eq_true_eq]
      omega
    · simp only [stylesOkAux]
      rw [stylesOkAux_append]
      rw [stylesOkAux_styleReqs InlineKind.bold
        (fun m hm => (boldMatches_bounds m hm).2) (Nat.le_add_right o n) (by simp; omega)]
      rw [stylesOkAux_styleReqs InlineKind.italic
        (fun m hm => (italicMatches_bounds m hm).2) (Nat.le_add_right o n)
        (by simp [insertedLen_styleReqs]; omega)]
      simp

theorem mdStep_styleWithin (l : List Char) (c : Nat) :
    (markdownLineReqs l c).1.all (styleWithin c (markdownLineReqs l c).2) = true := by
  unfold markdownLineReqs
  split
  · simp [styleWithin, styleRange]
  · split
    · simp only [List.all_cons, List.all_nil, styleWithin, styleRange, Bool.and_true,
        Bool.true_and, decide_eq_true_eq, List.length_append, List.length_cons,
        List.length_nil]
      omega
    · simp only [List.all_cons, List.all_append, styleWithin, styleRange, Bool.true_and]
      rw [styleReqs_all_within InlineKind.bold
        (fun m hm => (boldMatches_bounds m hm).2)
        (by simp only [List.length_append, List.length_cons, List.length_nil]; omega)]
      rw [styleReqs_all_within InlineKind.italic
        (fun m hm => (italicMatches_bounds m hm).2)
        (by simp only [List.length_append, List.length_cons, List.length_nil]; omega)]
      simp

theorem mdStep_ne_nil (l : List Char) (c : Nat) : (markdownLineReqs l c).1 ≠ [] := by
  unfold markdownLineReqs
  split
  · simp
  · split <;> simp

theorem createImageRequest_ok_shape {url : List Char} {fetch : FetchOutcome} {c : Nat} {r : Req}
    (h : createImageRequest url fetch c = Except.ok (some r)) :
    ∃ fid, r = Req.insertInlineImage c (driveUri fid) := by
  unfold createImageRequest at h
  split at h
  · simp at h
  · split at h
    · exact Except.noConfusion h
    · rename_i ct len fid
      split at h
      · simp at h
      · split at h
        · simp at h
        · exact ⟨fid, (Option.some.inj (Except.ok.inj h)).symm⟩

theorem htmlStep_cursor (a : HtmlNode) (c : Nat) :
    (htmlNodeReqs a c).2 = c + insertedLen (htmlNodeReqs a c).1 := by
  cases a with
  | textNode s => simp [htmlNodeReqs, insertedLen]
  | other => simp [htmlNodeReqs, insertedLen]
  | heading lvl t => simp [htmlNodeReqs, insertedLen]
  | para t => simp [htmlNodeReqs, insertedLen]
  | br => simp [htmlNodeReqs, insertedLen]
  | img src fetch =>
    cases src with
    | none => simp [htmlNodeReqs, insertedLen]
    | some url =>
      simp only [htmlNodeReqs]
      split
      · simp [insertedLen]
      · split
        · rename_i r heq
          obtain ⟨fid, rfl⟩ := createImageRequest_ok_shape heq
          simp [insertedLen]
        · simp [insertedLen]
        · simp [insertedLen]

theorem htmlStep_stylesOk (a : HtmlNode) (o n : Nat) :
    stylesOkAux o (htmlNodeReqs a (o + n)).1 n = true := by
  cases a with
  | textNode s => simp [htmlNodeReqs, stylesOkAux]
  | other => simp [htmlNodeReqs, stylesOkAux]
  | heading lvl t =>
    simp only [htmlNodeReqs, stylesOkAux, List.length_append, List.length_cons,
      List.length_nil, Bool.and_true, decide_eq_true_eq]
    omega
  | para t => simp [htmlNodeReqs, stylesOkAux]
  | br => simp [htmlNodeReqs, stylesOkAux]
  | img src fetch =>
    cases src with
    | none => simp [htmlNodeReqs, stylesOkAux]
    | some url =>
      simp only [htmlNodeReqs]
      split
      · simp [stylesOkAux]
      · split
        · rename_i r heq
          obtain ⟨fid, rfl⟩ := createImageRequest_ok_shape heq
          simp [stylesOkAux]
        · simp [stylesOkAux]
        · simp [stylesOkAux]

theorem htmlStep_styleWithin (a : HtmlNode) (c : Nat) :
    (htmlNodeReqs a c).1.all (styleWithin c (htmlNodeReqs a c).2) = true := by
  cases a with
  | textNode s => simp [htmlNodeReqs]
  | other => simp [htmlNodeReqs]
  | heading lvl t =>
    simp only [htmlNodeReqs, List.all_cons, List.all_nil, styleWithin, styleRange,
      Bool.and_true, Bool.true_and, decide_eq_true_eq, List.length_append,
      List.length_cons, List.length_nil]
    omega
  | para t => simp [htmlNodeReqs, styleWithin, styleRange]
  | br => simp [htmlNodeReqs, styleWithin, styleRange]
  | img src fetch =>
    cases src with
    | none => simp [htmlNodeReqs]
    | some url =>
      simp only [htmlNodeReqs]
      split
      · simp
      · split
        · rename_i r heq
          obtain ⟨fid, rfl⟩ := createImageRequest_ok_shape heq
          simp [styleWithin, styleRange]
        · simp
        · simp [styleWithin, styleRange]

theorem runFold_cursor {α : Type} (step : α → Nat → List Req × Nat)
    (hs : ∀ a c, (step a c).2 = c + insertedLen (step a c).1) :
    ∀ ls c, (runFold step ls c).2 = c + insertedLen (runFold step ls c).1 := by
  intro ls
  induction ls with
  | nil => intro c; simp [runFold, insertedLen]
  | cons a rest ih =>
    intro c
    simp only [runFold, insertedLen_append]
    rw [ih (step a c).2, hs a c]
    omega

theorem runFold_stylesOk {α : Type} (step : α → Nat → List Req × Nat)
    (hs : ∀ a c, (step a c).2 = c + insertedLen (step a c).1)
    (hok : ∀ a o n, stylesOkAux o (step a (o + n)).1 n = true) :
    ∀ ls o n, stylesOkAux o (runFold step ls (o + n)).1 n = true := by
  intro ls
  induction ls with
  | nil => intro o n; simp [runFold, stylesOkAux]
  | cons a rest ih =>
    intro o n
    simp only [runFold]
    rw [stylesOkAux_append, hok a o n]
    have hc : (step a (o + n)).2 = o + (n + insertedLen (step a (o + n)).1) := by
      rw [hs a (o + n)]; omega
    rw [hc] at *
    rw [ih o (n + insertedLen (step a (o + n)).1)]
    simp

theorem runFold_mem_step {α : Type} (step : α → Nat → List Req × Nat) :
    ∀ (ls : List α) (c : Nat) (a : α), a ∈ ls →
      ∃ c2, ∀ r ∈ (step a c2).1, r ∈ (runFold step ls c).1 := by
  intro ls
  induction ls with
  | nil => intro c a ha; simp at ha
  | cons b rest ih =>
    intro c a ha
    rcases List.mem_cons.mp ha with rfl | ha2
    · exact ⟨c, fun r hr => by simp only [runFold, List.mem_append]; exact Or.inl hr⟩
    · obtain ⟨c2, hc2⟩ := ih (step b c).2 a ha2
      exact ⟨c2, fun r hr => by simp only [runFold, List.mem_append]; exact Or.inr (hc2 r hr)⟩

theorem runFold_ne_nil_of_mem {α : Type} (step : α → Nat → List Req × Nat)
    {ls : List α} {a : α} (ha : a ∈ ls) (hne : ∀ c, (step a c).1 ≠ []) :
    ∀ c, (runFold step ls c).1 ≠ [] := by
  induction ls with
  | nil => simp at ha
  | cons b rest ih =>
    intro c
    rcases List.mem_cons.mp ha with rfl | ha2
    · simp only [runFold, ne_eq, List.append_eq_nil]
      intro hcon
      exact hne c hcon.1
    · simp only [runFold, ne_eq, List.append_eq_nil]
      intro hcon
      exact ih ha2 (step b c).2 hcon.2

theorem mdRun_ne_nil (ls : List (List Char)) (c : Nat) (h : ls ≠ []) :
    (mdRun ls c).1 ≠ [] := by
  cases ls with
  | nil => exact absurd rfl h
  | cons l rest =>
    exact runFold_ne_nil_of_mem markdownLineReqs (List.mem_cons_self l rest)
      (fun c2 => mdStep_ne_nil l c2) c

theorem leadCount_le_length (p : Char → Bool) (l : List Char) : leadCount p l ≤ l.length := by
  induction l with
  | nil => simp [leadCount]
  | cons c rest ih =>
    simp only [leadCount, List.length_cons]
    split <;> omega

theorem leadCount_pos_iff (p : Char → Bool) (l : List Char) :
    0 < leadCount p l ↔ ∃ c, l.get? 0 = some c ∧ p c = true := by
  cases l with
  | nil => simp [leadCount]
  | cons c rest =>
    simp only [leadCount, List.get?]
    split
    · rename_i hp
      simp [hp]
    · rename_i hp
      simp only [Nat.lt_irrefl, false_iff]
      rintro ⟨c2, hc2, hp2⟩
      obtain rfl : c = c2 := by injection hc2
      exact hp hp2

/-- Semantic characterization of the heading regex: a line matches
`^(#{1,6})\s+(.+)$` exactly when it starts with 1..6 hashes, the next
character is whitespace, and at least one further character follows. -/
theorem headingMatch_isSome_iff (l : List Char) :
    (headingMatch l).isSome = true ↔
      (1 ≤ leadCount (fun c => c = '#') l ∧ leadCount (fun c => c = '#') l ≤ 6 ∧
        (∃ c, l.get? (leadCount (fun c => c = '#') l) = some c ∧ isPySpace c = true) ∧
        leadCount (fun c => c = '#') l + 2 ≤ l.length) := by
  unfold headingMatch
  have hmlen : leadCount (fun c => c = '#') l ≤ l.length := leadCount_le_length _ l
  have hr1len : (l.drop (leadCount (fun c => c = '#') l)).length =
      l.length - leadCount (fun c => c = '#') l := by simp
  have hwr : leadCount isPySpace (l.drop (leadCount (fun c => c = '#') l)) ≤
      (l.drop (leadCount (fun c => c = '#') l)).length := leadCount_le_length _ _
  have hget0 : (l.drop (leadCount (fun c => c = '#') l)).get? 0 =
      l.get? (leadCount (fun c => c = '#') l) := by
    rw [List.get?_drop, Nat.add_zero]
  have hpos : 0 < leadCount isPySpace (l.drop (leadCount (fun c => c = '#') l)) ↔
      ∃ c, l.get? (leadCount (fun c => c = '#') l) = some c ∧ isPySpace c = true := by
    rw [leadCount_pos_iff, hget0]
  constructor
  · intro h
    dsimp only at h
    split at h
    · rename_i hm16
      split at h
      · simp at h
      · rename_i hw0
        split at h
        · rename_i hrest
          have hwl : leadCount isPySpace (l.drop (leadCount (fun c => c = '#') l)) <
              (l.drop (leadCount (fun c => c = '#') l)).length := by
            by_contra hcon
            exact hrest (List.drop_eq_nil_iff_le.mpr (by omega))
          exact ⟨hm16.1, hm16.2, hpos.mp (by omega), by omega⟩
        · rename_i hrest
          split at h
          · rename_i hw2
            exact ⟨hm16.1, hm16.2, hpos.mp (by omega), by omega⟩
          · simp at h
    · simp at h
  · rintro ⟨h1, h2, h3, h4⟩
    dsimp only
    rw [if_pos ⟨h1, h2⟩]
    have hw0 : 0 < leadCount isPySpace (l.drop (leadCount (fun c => c = '#') l)) :=
      hpos.mpr h3
    rw [if_neg (by omega)]
    by_cases hrest : (l.drop (leadCount (fun c => c = '#') l)).drop
        (leadCount isPySpace (l.drop (leadCount (fun c => c = '#') l))) ≠ []
    · rw [if_pos hrest]
      simp
    · rw [if_neg hrest]
      push_neg at hrest
      have hle := List.drop_eq_nil_iff_le.mp hrest
      rw [if_pos (show 2 ≤ leadCount isPySpace (l.drop (leadCount (fun c => c = '#') l))
        by omega)]
      simp

theorem mdRun_stylesOk (ls : List (List Char)) (start : Nat) :
    stylesOkAux start (mdRun ls start).1 0 = true := by
  have := runFold_stylesOk markdownLineReqs mdStep_cursor mdStep_stylesOk ls start 0
  simpa [mdRun] using this

theorem htmlRun_stylesOk (ns : List HtmlNode) (start : Nat) :
    stylesOkAux start (htmlRun ns start).1 0 = true := by
  have := runFold_stylesOk htmlNodeReqs htmlStep_cursor htmlStep_stylesOk ns start 0
  simpa [htmlRun] using this

theorem textBlock_step_ne_nil {n : HtmlNode} {c : Nat} (h : isTextBlock n = true) :
    (htmlNodeReqs n c).1 ≠ [] := by
  cases n with
  | heading lvl t => simp [htmlNodeReqs]
  | para t => simp [htmlNodeReqs]
  | img src f => simp [isTextBlock] at h
  | br => simp [isTextBlock] at h
  | textNode s => simp [isTextBlock] at h
  | other => simp [isTextBlock] at h

theorem htmlRun_nil_truncate_id : ∀ (ns : List HtmlNode) (c : Nat),
    (htmlRun ns c).1 = [] → truncateAtBlock ns = ns := by
  intro ns
  induction ns with
  | nil => intro c _; rfl
  | cons n rest ih =>
    intro c h
    unfold htmlRun runFold at h
    dsimp only at h
    rcases List.append_eq_nil.mp h with ⟨h1, hq⟩
    have hb : isTextBlock n = false := by
      cases hbb : isTextBlock n
      · rfl
      · exact absurd h1 (textBlock_step_ne_nil hbb)
    simp [truncateAtBlock, hb, ih (htmlNodeReqs n c).2 hq]

theorem truncate_prefix_block : ∀ (xs : List HtmlNode) (blk : HtmlNode)
    (rest : List HtmlNode), isTextBlock blk = true →
    (∀ m ∈ xs, isTextBlock m = false) →
    truncateAtBlock (xs ++ blk :: rest) = xs ++ [blk] := by
  intro xs blk rest hblk
  induction xs with
  | nil => intro _; simp [truncateAtBlock, hblk]
  | cons x xt ih =>
    intro hxs
    have hx := hxs x (List.mem_cons_self x xt)
    simp [truncateAtBlock, hx, ih (fun m hm => hxs m (List.mem_cons_of_mem x hm))]

theorem abortsOld_false_truncate : ∀ ns : List HtmlNode, abortsOld ns = false →
    truncateAtBlock ns = ns := by
  intro ns
  induction ns with
  | nil => intro _; rfl
  | cons n rest ih =>
    intro h
    unfold abortsOld at h
    cases hb : isTextBlock n with
    | false =>
      rw [hb] at h
      simp at h
      simp [truncateAtBlock, hb, ih h]
    | true =>
      rw [hb] at h
      simp at h
      have hrest : rest = [] := h
      subst hrest
      simp [truncateAtBlock, hb]

theorem abortsOld_false_walkOld : ∀ ns : List HtmlNode, abortsOld ns = false →
    ∀ c, walkOldAux ns c = Except.ok (htmlRun ns c) := by
  intro ns
  induction ns with
  | nil => intro _ c; rfl
  | cons n rest ih =>
    intro h c
    unfold abortsOld at h
    unfold walkOldAux
    dsimp only
    cases hb : isTextBlock n with
    | true =>
      rw [hb] at h
      simp at h
      have hrest : rest = [] := h
      subst hrest
      simp [hb, htmlRun, runFold]
    | false =>
      rw [hb] at h
      simp at h
      rw [ih h (htmlNodeReqs n c).2]
      rfl

theorem walkOldAux_error_iff : ∀ (ns : List HtmlNode) (c : Nat),
    walkOldAux ns c = Except.error () ↔ abortsOld ns = true := by
  intro ns
  induction ns with
  | nil => intro c; simp [walkOldAux, abortsOld]
  | cons n rest ih =>
    intro c
    unfold walkOldAux abortsOld
    dsimp only
    cases hb : isTextBlock n with
    | true =>
      by_cases hr : rest = []
      · subst hr
        simp [hb]
      · simp [hb, hr, List.isEmpty_iff]
    | false =>
      cases hw : walkOldAux rest (htmlNodeReqs n c).2 with
      | ok q =>
        constructor
        · intro hcon
          exact Except.noConfusion hcon
        · intro hab
          have h2 := (ih (htmlNodeReqs n c).2).mpr hab
          rw [hw] at h2
          exact Except.noConfusion h2
      | error e =>
        cases e
        constructor
        · intro _
          exact (ih (htmlNodeReqs n c).2).mp hw
        · intro _
          rfl

theorem parseHtmlOld_error_iff : ∀ (ns : List HtmlNode) (c : Nat),
    parse_html_to_requests_old ns c = Except.error () ↔ abortsOld ns = true := by
  intro ns c
  unfold parse_html_to_requests_old
  cases hw : walkOldAux ns c with
  | error e =>
    cases e
    simp [(walkOldAux_error_iff ns c).mp hw]
  | ok p =>
    dsimp only
    constructor
    · intro hcon
      split at hcon
      · exact Except.noConfusion hcon
      · exact Except.noConfusion hcon
    · intro hab
      have := (walkOldAux_error_iff ns c).mpr hab
      rw [hw] at this
      exact Except.noConfusion this

theorem abortsOld_false_parse_agree : ∀ (ns : List HtmlNode) (c : Nat),
    abortsOld ns = false →
    parse_html_to_requests_old ns c = Except.ok (parse_html_to_requests ns c) := by
  intro ns c h
  unfold parse_html_to_requests_old parse_html_to_requests
  rw [abortsOld_false_walkOld ns h c, abortsOld_false_truncate ns h]
  dsimp only
  split
  · rfl
  · rfl

theorem walkOldAux_stylesOk : ∀ (ns : List HtmlNode) (o m : Nat) (rs : List Req)
    (c2 : Nat), walkOldAux ns (o + m) = Except.ok (rs, c2) →
    stylesOkAux o rs m = true := by
  intro ns
  induction ns with
  | nil =>
    intro o m rs c2 h
    simp only [walkOldAux, Except.ok.injEq, Prod.mk.injEq] at h
    rw [← h.1]
    rfl
  | cons n rest ih =>
    intro o m rs c2 h
    unfold walkOldAux at h
    dsimp only at h
    split at h
    · split at h
      · simp only [Except.ok.injEq, Prod.mk.injEq] at h
        rw [← h.1]
        exact htmlStep_stylesOk n o m
      · exact Except.noConfusion h
    · split at h
      · rename_i q hq
        simp only [Except.ok.injEq, Prod.mk.injEq] at h
        rw [← h.1]
        rw [stylesOkAux_append, htmlStep_stylesOk n o m]
        have hc : (htmlNodeReqs n (o + m)).2 =
            o + (m + insertedLen (htmlNodeReqs n (o + m)).1) := by
          rw [htmlStep_cursor]
          omega
        rw [hc] at hq
        rw [ih o (m + insertedLen (htmlNodeReqs n (o + m)).1) q.1 q.2
          (by rw [← hq])]
        rfl
      · exact Except.noConfusion h

theorem parseHtmlOld_stylesOk : ∀ (ns : List HtmlNode) (start : Nat),
    stylesOkE start (parse_html_to_requests_old ns start) = true := by
  intro ns start
  unfold parse_html_to_requests_old
  cases hw : walkOldAux ns start with
  | error e => rfl
  | ok p =>
    dsimp only
    split
    · split
      · rfl
      · rfl
    · obtain ⟨rs, c2⟩ := p
      have := walkOldAux_stylesOk ns start 0 rs c2 (by rw [Nat.add_zero]; exact hw)
      simpa [stylesOkE, stylesOk] using this

/-! Claim theorems. -/

/-- C1: every `updateParagraphStyle`/`updateTextStyle` command emitted by
the markdown builder, the HTML builder or the header builder has
`range.startIndex` at or above the segment origin (the `start_index`
argument for the body, 0 for the header) and `range.endIndex` at or below
the cursor value right after the `insertText` that inserted the text the
range refers to; equivalently, no style command references an index that
has not yet been inserted at the time it is emitted (`stylesOk` walks the
emitted list with the running inserted length, `styleWithin` bounds each
style of one step between the pre-step cursor and the cursor right after
the step's single insert).  The HTML builder is covered under both
beautifulsoup4 behaviors: the ≥ 4.13 truncating walk
(`parse_html_to_requests`) and the ≤ 4.12 walk, whose completed runs
satisfy the same bounds and whose `AttributeError` runs emit nothing. -/
theorem c1_style_ranges :
    (∀ text start, stylesOk start (parse_markdown_to_requests text start).1 = true) ∧
    (∀ ns start, stylesOk start (parse_html_to_requests ns start).1 = true) ∧
    (∀ ns start, stylesOkE start (parse_html_to_requests_old ns start) = true) ∧
    (∀ md, headerReqsOk (create_first_page_header_reqs md) = true) ∧
    (∀ l c, (markdownLineReqs l c).1.all (styleWithin c (markdownLineReqs l c).2) = true) ∧
    (∀ a c, (htmlNodeReqs a c).1.all (styleWithin c (htmlNodeReqs a c).2) = true) := by
  refine ⟨?_, ?_, parseHtmlOld_stylesOk, ?_, mdStep_styleWithin, htmlStep_styleWithin⟩
  · intro text start
    exact mdRun_stylesOk (splitOnC '\n' text) start
  · intro ns start
    unfold parse_html_to_requests
    dsimp only
    split
    · split
      · simp [stylesOk, stylesOkAux]
      · simp [stylesOk, stylesOkAux]
    · exact htmlRun_stylesOk (truncateAtBlock ns) start
  · intro md
    cases hf : format_front_matter_for_header md with
    | none => simp [create_first_page_header_reqs, hf, headerReqsOk]
    | some t =>
      by_cases ht : 0 < t.length
      · simp [create_first_page_header_reqs, hf, headerReqsOk, ht, hStylesOkAux]
      · simp [create_first_page_header_reqs, hf, headerReqsOk, ht, hStylesOkAux]

/-- C2 counterexample: for the HTML input consisting of a bare
non-whitespace text node, the walk emits nothing, so the fallback inserts
the flattened body text without advancing `current_index`; the final
cursor is 1 while origin plus the inserted lengths is 3 — the claimed
equation fails on this input. -/
theorem c2_counterexample :
    (parse_html_to_requests [HtmlNode.textNode (chars "hi")] 1).2 ≠
      1 + insertedLen (parse_html_to_requests [HtmlNode.textNode (chars "hi")] 1).1 := by
  decide

/-- C2 amended: along the block walks themselves (both dialects), the
final cursor equals the origin plus the sum of inserted text lengths with
each successful inline image counted as 1, and the cursor never decreases
at any step; the markdown builder has no fallback, so this covers its
whole output, while the HTML fallback insert (emitted only when the walk
emitted nothing) is not tracked by the cursor. -/
theorem c2_amended :
    (∀ text start, (parse_markdown_to_requests text start).2 =
      start + insertedLen (parse_markdown_to_requests text start).1) ∧
    (∀ ns start, (htmlRun ns start).2 = start + insertedLen (htmlRun ns start).1) ∧
    (∀ l c, c ≤ (markdownLineReqs l c).2) ∧
    (∀ a c, c ≤ (htmlNodeReqs a c).2) := by
  refine ⟨?_, ?_, ?_, ?_⟩
  · intro text start
    exact runFold_cursor markdownLineReqs mdStep_cursor (splitOnC '\n' text) start
  · intro ns start
    exact runFold_cursor htmlNodeReqs htmlStep_cursor ns start
  · intro l c
    rw [mdStep_cursor]
    exact Nat.le_add_right _ _
  · intro a c
    rw [htmlStep_cursor]
    exact Nat.le_add_right _ _

/-- C3 counterexample: for the cloud-metadata URL the SSRF policy rejects,
`_create_image_request` returns `None` before any fetch, and the emitter's
`if image_request:` test then skips the block entirely — no placeholder
`InsertText` is emitted and the cursor does not move (shown here even with
a fetch that would raise).  The claim's asserted placeholder command is
not what is emitted. -/
theorem c3_counterexample :
    validate_image_url (chars "http://169.254.169.254/latest/meta-data/") = false ∧
    htmlNodeReqs
      (HtmlNode.img (some (chars "http://169.254.169.254/latest/meta-data/"))
        FetchOutcome.err) 1 = ([], 1) ∧
    htmlNodeReqs
      (HtmlNode.img (some (chars "http://169.254.169.254/latest/meta-data/"))
        FetchOutcome.err) 1 ≠
      ([Req.insertText 1
          (imagePlaceholder (chars "http://169.254.169.254/latest/meta-data/"))],
        1 + (imagePlaceholder (chars "http://169.254.169.254/latest/meta-data/")).length) := by
  refine ⟨by decide, by decide, by decide⟩

/-- C3 amended: the placeholder `InsertText` with text
`"[Image: " + url + "]\n"` is emitted (advancing the cursor by its length)
exactly when the URL passes the SSRF policy and the fetch or upload
raises; an image block whose URL the policy rejects, whose response is not
an image content type, or whose response exceeds 10 MiB is skipped with no
emitted command and no cursor advance — in particular the cloud-metadata
URL of Scenario B is skipped, not replaced by a placeholder.  A policy-
accepted fetch of an image within the size limit yields the
`insertInlineImage` request and advances the cursor by 1. -/
theorem c3_amended : ∀ (url : List Char) (fetch : FetchOutcome) (c : Nat),
    (validate_image_url url = false →
      htmlNodeReqs (HtmlNode.img (some url) fetch) c = ([], c)) ∧
    (validate_image_url url = true →
      htmlNodeReqs (HtmlNode.img (some url) FetchOutcome.err) c =
        ([Req.insertText c (imagePlaceholder url)], c + (imagePlaceholder url).length)) ∧
    (∀ ct len fid, validate_image_url url = true →
      startsWithL ct (chars "image/") = false →
      htmlNodeReqs (HtmlNode.img (some url) (FetchOutcome.ok ct len fid)) c = ([], c)) ∧
    (∀ ct len fid, validate_image_url url = true → 10 * 1024 * 1024 < len →
      htmlNodeReqs (HtmlNode.img (some url) (FetchOutcome.ok ct len fid)) c = ([], c)) ∧
    (∀ ct len fid, validate_image_url url = true →
      startsWithL ct (chars "image/") = true → len ≤ 10 * 1024 * 1024 →
      htmlNodeReqs (HtmlNode.img (some url) (FetchOutcome.ok ct len fid)) c =
        ([Req.insertInlineImage c (driveUri fid)], c + 1)) := by
  intro url fetch c
  have hne : ∀ h : validate_image_url url = true, url ≠ [] := by
    intro h hcon
    rw [hcon] at h
    exact Bool.noConfusion h
  refine ⟨?_, ?_, ?_, ?_, ?_⟩
  · intro hv
    simp only [htmlNodeReqs]
    split
    · rfl
    · simp [createImageRequest, hv]
  · intro hv
    simp only [htmlNodeReqs]
    rw [if_neg (hne hv)]
    simp [createImageRequest, hv]
  · intro ct len fid hv hct
    simp only [htmlNodeReqs]
    rw [if_neg (hne hv)]
    simp [createImageRequest, hv, hct]
  · intro ct len fid hv hlen
    simp only [htmlNodeReqs]
    rw [if_neg (hne hv)]
    by_cases hct : startsWithL ct (chars "image/") = true
    · simp [createImageRequest, hv, hct, hlen]
    · simp [createImageRequest, hv, hct]
  · intro ct len fid hv hct hlen
    simp only [htmlNodeReqs]
    rw [if_neg (hne hv)]
    simp [createImageRequest, hv, hct, Nat.not_lt.mpr hlen]

/-- Text content of a line as the markdown builder inserts it: the
regex remainder for a heading line, the whole line otherwise. -/
def lineContent (l : List Char) : List Char :=
  match headingMatch l with
  | some p => p.2
  | none => l

theorem mdStep_content_insert (l : List Char) (c : Nat) (hb : isBlankLine l = false) :
    Req.insertText c (lineContent l ++ ['\n']) ∈ (markdownLineReqs l c).1 := by
  cases hh : headingMatch l with
  | some p =>
    obtain ⟨lvl, rem⟩ := p
    simp [markdownLineReqs, lineContent, hb, hh]
  | none => simp [markdownLineReqs, lineContent, hb, hh]

/-- C3 witness: a policy-accepted URL whose fetch raises gets the
placeholder insert, via the amended theorem at a concrete input. -/
theorem c3_witness :
    htmlNodeReqs (HtmlNode.img (some (chars "https://example.com/a.png")) FetchOutcome.err) 1 =
      ([Req.insertText 1 (chars "[Image: https://example.com/a.png]\n")], 36) := by
  have h := (c3_amended (chars "https://example.com/a.png") FetchOutcome.err 1).2.1 (by decide)
  exact h.trans (by decide)


/-- C4 counterexample: in the HTML walk, a non-whitespace text node that
is not inside a recognized element matches no branch and is dropped
whenever any recognized block exists: for the node list of
`<div>hello</div><p>x</p>` the word `hello` appears in no emitted
`InsertText` — the claim that nothing is ever dropped fails. -/
theorem c4_counterexample :
    parse_html_to_requests [HtmlNode.textNode (chars "hello"), HtmlNode.para (chars "x")] 1 =
      ([Req.insertText 1 (chars "x\n")], 3) ∧
    insertedText
      (parse_html_to_requests [HtmlNode.textNode (chars "hello"),
        HtmlNode.para (chars "x")] 1).1 = chars "x\n" ∧
    containsSub (chars "hello")
      (insertedText
        (parse_html_to_requests [HtmlNode.textNode (chars "hello"),
          HtmlNode.para (chars "x")] 1).1) = false := by
  refine ⟨by decide, by decide, by decide⟩

/-- C4 amended: only the markdown dialect is total and preserving —
building its command list never raises and every non-blank line has its
content (heading remainder, or the whole line) inserted by some emitted
`InsertText`.  In the HTML dialect the loop extracts children inside the
live `body.descendants` generator, so: under beautifulsoup4 ≤ 4.12 the
build raises `AttributeError` exactly when a heading/paragraph owning a
text child is followed by any further node (aborting the whole
conversion); under ≥ 4.13 the walk silently ends at the first such
heading/paragraph, dropping every later node; the two versions agree —
and behave like a clean full walk — exactly when no such mid-document
block exists.  When the walk emitted nothing (so nothing was extracted)
and the flattened body text is non-blank, the whole flattened text is
inserted by the fallback; a non-whitespace text node outside recognized
elements is dropped whenever the walk emitted any request. -/
theorem c4_amended :
    (∀ text l, l ∈ splitOnC '\n' text → isBlankLine l = false →
      ∃ i, Req.insertText i (lineContent l ++ ['\n']) ∈
        (parse_markdown_to_requests text 1).1) ∧
    (∀ ns c, parse_html_to_requests_old ns c = Except.error () ↔
      abortsOld ns = true) ∧
    (∀ ns c, abortsOld ns = false →
      parse_html_to_requests_old ns c = Except.ok (parse_html_to_requests ns c)) ∧
    (∀ xs blk rest, isTextBlock blk = true → (∀ m ∈ xs, isTextBlock m = false) →
      truncateAtBlock (xs ++ blk :: rest) = xs ++ [blk]) ∧
    (∀ ns start, (htmlRun ns start).1 = [] →
      isBlankLine ((ns.map nodeText).flatten) = false →
      (parse_html_to_requests ns start).1 =
        [Req.insertText 1 ((ns.map nodeText).flatten)]) := by
  refine ⟨?_, parseHtmlOld_error_iff, abortsOld_false_parse_agree,
    truncate_prefix_block, ?_⟩
  · intro text l hl hb
    obtain ⟨c2, hsub⟩ := runFold_mem_step markdownLineReqs (splitOnC '\n' text) 1 l hl
    exact ⟨c2, hsub _ (mdStep_content_insert l c2 hb)⟩
  · intro ns start hrun hblank
    have ht := htmlRun_nil_truncate_id ns start hrun
    unfold parse_html_to_requests
    rw [ht]
    dsimp only
    rw [if_pos hrun, if_neg (by rw [hblank]; exact Bool.false_ne_true)]

/-- C4 witness: the markdown preservation clause applied to the one-line
input `"a"`, the ≤ 4.12 abort clause and the ≥ 4.13 truncation clause
applied to the two-paragraph document `<p>a</p><p>b</p>`. -/
theorem c4_witness :
    (∃ i, Req.insertText i (lineContent (chars "a") ++ ['\n']) ∈
      (parse_markdown_to_requests (chars "a") 1).1) ∧
    parse_html_to_requests_old [HtmlNode.para (chars "a"), HtmlNode.para (chars "b")] 1 =
      Except.error () ∧
    truncateAtBlock [HtmlNode.para (chars "a"), HtmlNode.para (chars "b")] =
      [HtmlNode.para (chars "a")] := by
  refine ⟨c4_amended.1 (chars "a") (chars "a") (by decide) (by decide),
    (c4_amended.2.1 [HtmlNode.para (chars "a"), HtmlNode.para (chars "b")] 1).mpr
      (by decide), ?_⟩
  have h := c4_amended.2.2.2.1 [] (HtmlNode.para (chars "a")) [HtmlNode.para (chars "b")]
    (by decide) (by intro m hm; exact absurd hm (List.not_mem_nil m))
  simpa using h

/-- C5 counterexample: the italic pass runs its regex on the original line
with no check against recorded bold spans, so on `"**a *b* c**"` it emits
the italic span `[4, 7)` strictly inside the bold span `[0, 11)` — the
spans overlap and no candidate is dropped, refuting the claimed pairwise
disjointness of bold and italic ranges on a line. -/
theorem c5_counterexample :
    boldMatches (chars "**a *b* c**") = [(0, 11)] ∧
    italicMatches (chars "**a *b* c**") = [(4, 7)] ∧
    ¬ (11 ≤ 4 ∨ 7 ≤ 0) := by
  refine ⟨by decide, by decide, by decide⟩

/-- C5 amended: on every line the bold spans are pairwise disjoint among
themselves and the italic spans are pairwise disjoint among themselves
(each `finditer` pass resumes after the end of each match), and every
span is a well-formed in-bounds half-open range; but an italic span may
overlap a bold span — the scanner performs no cross-kind dropping. -/
theorem c5_amended : ∀ l : List Char,
    List.Pairwise (fun a b : Nat × Nat => a.2 ≤ b.1) (boldMatches l) ∧
    List.Pairwise (fun a b : Nat × Nat => a.2 ≤ b.1) (italicMatches l) ∧
    (boldMatches l).all (fun m => decide (m.1 < m.2 ∧ m.2 ≤ l.length)) = true ∧
    (italicMatches l).all (fun m => decide (m.1 < m.2 ∧ m.2 ≤ l.length)) = true := by
  intro l
  refine ⟨scanWith_pairwise (fun i e h => boldAt_spec h) (l.length + 1) 0,
    scanWith_pairwise (fun i e h => italAt_spec h) (l.length + 1) 0, ?_, ?_⟩
  · rw [List.all_eq_true]
    intro m hm
    rw [decide_eq_true_eq]
    exact boldMatches_bounds m hm
  · rw [List.all_eq_true]
    intro m hm
    rw [decide_eq_true_eq]
    exact italicMatches_bounds m hm

def scenarioA : List Char := chars "# Title\n\nHello **world**\n"

/-- C6 counterexample: on Scenario A the builder does not emit the claimed
command list — the bold style range is `[14, 23)` (the match `**world**`
occupies offsets 6..15 of the line inserted at index 8, so 8+6 and 8+15),
not `[13, 22)`, and the trailing newline of the input yields a fourth,
blank line whose `InsertText "\n"` at 24 the claim omits. -/
theorem c6_counterexample :
    (parse_markdown_to_requests scenarioA 1).1 ≠
      [Req.insertText 1 (chars "Title\n"),
        Req.updateParagraphStyle 1 6 (chars "HEADING_1"),
        Req.insertText 7 (chars "\n"),
        Req.insertText 8 (chars "Hello **world**\n"),
        Req.updateTextStyle 13 22 InlineKind.bold] := by
  decide

/-- C6 amended: Scenario A splits into the lines `"# Title"`, blank,
`"Hello **world**"` and a final blank (the trailing newline), and the
emitted body commands are exactly: insert `"Title\n"` at 1 with
`HEADING_1` paragraph style on `[1, 6)`; insert `"\n"` at 7; insert
`"Hello **world**\n"` at 8 with bold text style on `[14, 23)` (offsets of
`**world**` within the line, delimiters included, shifted by the cursor
8); insert `"\n"` at 24 — final cursor 25. -/
theorem c6_amended :
    parse_markdown_to_requests scenarioA 1 =
      ([Req.insertText 1 (chars "Title\n"),
        Req.updateParagraphStyle 1 6 (chars "HEADING_1"),
        Req.insertText 7 (chars "\n"),
        Req.insertText 8 (chars "Hello **world**\n"),
        Req.updateTextStyle 14 23 InlineKind.bold,
        Req.insertText 24 (chars "\n")], 25) := by
  decide

theorem headingMatch_level_bounds {l : List Char} {lvl : Nat} {rem : List Char}
    (h : headingMatch l = some (lvl, rem)) : 1 ≤ lvl ∧ lvl ≤ 6 := by
  unfold headingMatch at h
  dsimp only at h
  split at h
  · rename_i hb
    split at h
    · exact Option.noConfusion h
    · split at h
      · have h2 := Option.some.inj h
        rw [Prod.mk.injEq] at h2
        omega
      · split at h
        · have h2 := Option.some.inj h
          rw [Prod.mk.injEq] at h2
          omega
        · exact Option.noConfusion h
  · exact Option.noConfusion h

/-- C7 counterexample: the line `"# "` consists of one leading `#`
followed by whitespace, yet the builder treats it as a plain paragraph —
it inserts the whole line `"# \n"` and emits no `SetParagraphStyle` —
because the regex `^(#{1,6})\s+(.+)$` still needs a character for `(.+)`
after the whitespace. -/
theorem c7_counterexample :
    leadCount (fun c => c = '#') (chars "# ") = 1 ∧
    isPySpace ' ' = true ∧
    markdownLineReqs (chars "# ") 1 = ([Req.insertText 1 (chars "# \n")], 4) ∧
    (markdownLineReqs (chars "# ") 1).1.all (fun r => (styleRange r).isNone) = true := by
  refine ⟨by decide, by decide, by decide, by decide⟩

/-- C7 amended: a whitespace-only line yields `InsertText "\n"` and
advances the cursor by 1; a line matching the heading regex — equivalently
one with 1..6 leading `#`, then a whitespace character, then at least one
further character — yields `InsertText` of the regex remainder plus `"\n"`
and a `SetParagraphStyle` `Heading(level)` (1 ≤ level ≤ 6) covering the
remainder but excluding the trailing newline, advancing the cursor by
`len(remainder) + 1`; every other line, including one with 7 or more
leading `#` and one with nothing after `# `, is a plain paragraph
(inserted whole, with only the inline-span styles).  When the heading
line has only whitespace after the hashes (run length ≥ 2), the remainder
degenerates to the final whitespace character. -/
theorem c7_amended : ∀ (l : List Char) (c : Nat),
    (isBlankLine l = true → markdownLineReqs l c = ([Req.insertText c ['\n']], c + 1)) ∧
    (∀ lvl rem, isBlankLine l = false → headingMatch l = some (lvl, rem) →
      markdownLineReqs l c =
        ([Req.insertText c (rem ++ ['\n']),
          Req.updateParagraphStyle c (c + rem.length) (headingName lvl)],
          c + rem.length + 1) ∧ 1 ≤ lvl ∧ lvl ≤ 6) ∧
    (isBlankLine l = false → headingMatch l = none →
      markdownLineReqs l c =
        (Req.insertText c (l ++ ['\n']) ::
          (styleReqs c InlineKind.bold (boldMatches l) ++
            styleReqs c InlineKind.italic (italicMatches l)), c + l.length + 1)) ∧
    ((headingMatch l).isSome = true ↔
      (1 ≤ leadCount (fun c2 => c2 = '#') l ∧ leadCount (fun c2 => c2 = '#') l ≤ 6 ∧
        (∃ c2, l.get? (leadCount (fun c3 => c3 = '#') l) = some c2 ∧ isPySpace c2 = true) ∧
        leadCount (fun c2 => c2 = '#') l + 2 ≤ l.length)) := by
  intro l c
  refine ⟨?_, ?_, ?_, headingMatch_isSome_iff l⟩
  · intro hb
    unfold markdownLineReqs
    rw [if_pos hb]
  · intro lvl rem hb hh
    refine ⟨?_, headingMatch_level_bounds hh⟩
    unfold markdownLineReqs
    rw [if_neg (by rw [hb]; exact Bool.false_ne_true), hh]
    dsimp only
    have hlen : (rem ++ ['\n']).length = rem.length + 1 := by simp
    rw [hlen]
    have e1 : c + (rem.length + 1) - 1 = c + rem.length := by omega
    have e2 : c + (rem.length + 1) = c + rem.length + 1 := by omega
    rw [e1, e2]
  · intro hb hh
    unfold markdownLineReqs
    rw [if_neg (by rw [hb]; exact Bool.false_ne_true), hh]
    dsimp only
    have hlen : (l ++ ['\n']).length = l.length + 1 := by simp
    rw [hlen]
    have e2 : c + (l.length + 1) = c + l.length + 1 := by omega
    rw [e2]

/-- C7 witness: the heading clause of the amended theorem applied to the
concrete line `"## Hi"` at cursor 1. -/
theorem c7_witness :
    markdownLineReqs (chars "## Hi") 1 =
      ([Req.insertText 1 (chars "Hi\n"),
        Req.updateParagraphStyle 1 3 (chars "HEADING_2")], 4) := by
  have h := ((c7_amended (chars "## Hi") 1).2.1 2 (chars "Hi") (by decide) (by decide)).1
  exact h.trans (by decide)

def scenarioC : List (List Char × Value) :=
  [(chars "title", Value.vStr (chars "Report")),
   (chars "tags", Value.vList [Atom.aStr (chars "a"), Atom.aStr (chars "b")])]

/-- C8: for every non-empty metadata mapping (whose title value, if
present, is a string — a non-string title would make the join raise), the
header text is the title value first, unlabeled, followed by every other
key in insertion order rendered as `Titleized Key: value` with lists
joined by `", "` and dates as `YYYY-MM-DD`, all joined by newlines; the
emitted header requests are one `InsertText` of that full text at index 0
followed by exactly one whole-header font-size style exactly when the
text is nonempty.  Scenario C yields `"Report\nTags: a, b"`. -/
theorem c8_header_formatter :
    (∀ md : List (List Char × Value), md ≠ [] →
      (∀ v, findTitle md = some v → ∃ s, v = Value.vStr s) →
      ∃ t, format_front_matter_for_header md = some t ∧
        t = List.intercalate ['\n']
          ((match findTitle md with
            | some (Value.vStr s) => [s]
            | _ => []) ++
            (md.filter (fun kv => ¬ kv.1 = chars "title")).map metaLine) ∧
        create_first_page_header_reqs md = some
          ([HReq.insertText 0 t] ++
            (if 0 < t.length then [HReq.updateTextStyleFontSize 0 t.length 10] else []))) ∧
    format_front_matter_for_header scenarioC = some (chars "Report\nTags: a, b") := by
  constructor
  · intro md hne htitle
    cases hf : findTitle md with
    | none =>
      refine ⟨List.intercalate ['\n']
        ((md.filter (fun kv => ¬ kv.1 = chars "title")).map metaLine), ?_, ?_, ?_⟩
      · simp [format_front_matter_for_header, headerLines, hf]
      · rfl
      · simp [create_first_page_header_reqs, format_front_matter_for_header,
          headerLines, hf]
    | some v =>
      obtain ⟨s, rfl⟩ := htitle v hf
      refine ⟨List.intercalate ['\n']
        (s :: (md.filter (fun kv => ¬ kv.1 = chars "title")).map metaLine), ?_, ?_, ?_⟩
      · simp [format_front_matter_for_header, headerLines, hf]
      · rfl
      · simp [create_first_page_header_reqs, format_front_matter_for_header,
          headerLines, hf]
  · decide

/-- C8 counterexample: the claim quantifies over every non-empty
metadata mapping, but a mapping whose title value is not a string (here a
date, a value kind the formatter otherwise supports) produces no header
text at all: the title is appended to the lines list unconverted and
`'\n'.join(lines)` raises `TypeError` (modelled as `none`), aborting the
conversion instead of producing a header. -/
theorem c8_counterexample :
    format_front_matter_for_header [(chars "title", Value.vDate 2024 1 1)] = none ∧
    [(chars "title", Value.vDate 2024 1 1)] ≠ ([] : List (List Char × Value)) := by
  refine ⟨by decide, by decide⟩

/-- C8 witness: the general clause applied at the Scenario C metadata,
yielding its concrete header text and request list. -/
theorem c8_witness :
    format_front_matter_for_header scenarioC = some (chars "Report\nTags: a, b") ∧
    create_first_page_header_reqs scenarioC =
      some [HReq.insertText 0 (chars "Report\nTags: a, b"),
        HReq.updateTextStyleFontSize 0 17 10] := by
  obtain ⟨t, h1, h2, h3⟩ := c8_header_formatter.1 scenarioC (by decide)
    (by
      intro v hv
      rw [show findTitle scenarioC = some (Value.vStr (chars "Report")) from by decide] at hv
      exact ⟨chars "Report", (Option.some.inj hv).symm⟩)
  subst h2
  refine ⟨h1.trans (by decide), h3.trans (by decide)⟩


/-- Claim-side characterization (from the amended claim's words):
`validate_image_url` accepts exactly the nonempty data-image URIs and the
http/https URLs carrying a hostname that is neither `localhost` nor
`localhost.localdomain`, is not a dotted-quad IPv4 address in a private,
loopback, link-local or reserved range, and does not contain any
cloud-metadata denylist entry as a substring; everything else — other
schemes, missing hostnames, parse errors, the empty string — is
rejected. -/
def validateImageUrlSpec (url : List Char) : Bool :=
  !url.isEmpty &&
    (startsWithL url (chars "data:image/") ||
      match urlsplitModel url with
      | none => false
      | some p =>
        (decide (p.1 = chars "http") || decide (p.1 = chars "https")) &&
          match hostnameOfNetloc p.2 with
          | none => false
          | some h =>
            !(decide (h = chars "localhost") || decide (h = chars "localhost.localdomain")) &&
            (match parseIPv4 h with
             | some ip =>
               !(ipv4Private ip || ipv4Loopback ip || ipv4LinkLocal ip || ipv4Reserved ip)
             | none => true) &&
            !(blockedHostnames.any (fun b => containsSub b h)))

/-- C9 counterexample: `http://localhost.localdomain/a.png` is an http URL
with a hostname that is not the name `localhost`, is not an address of
any blocked class (it is not an address at all), and neither equals nor
contains a metadata denylist entry — by the claim it should be accepted —
yet `validate_image_url` returns `False` (the code also blocks the name
`localhost.localdomain`). -/
theorem c9_counterexample :
    validate_image_url (chars "http://localhost.localdomain/a.png") = false ∧
    (urlsplitModel (chars "http://localhost.localdomain/a.png")).map Prod.fst =
      some (chars "http") ∧
    urlHostname (chars "http://localhost.localdomain/a.png") =
      some (chars "localhost.localdomain") ∧
    parseIPv4 (chars "localhost.localdomain") = none ∧
    ¬ chars "localhost.localdomain" = chars "localhost" ∧
    blockedHostnames.any
      (fun b => containsSub b (chars "localhost.localdomain")) = false := by
  refine ⟨by decide, by decide, by decide, by decide, by decide, by decide⟩

/-- C9 amended: `validate_image_url` returns `False` for the empty string,
for every URL whose scheme is not http or https (except a data-URI image
form, accepted without fetching), for every URL without a hostname, for
the hostnames `localhost` and `localhost.localdomain`, for every hostname
that is a dotted-quad IPv4 address in a private, loopback, link-local or
reserved range, and for every hostname containing `metadata`,
`metadata.google.internal` or `instance-data` as a substring; it returns
`True` for every other http/https URL with a hostname. -/
theorem c9_amended : ∀ url, validate_image_url url = validateImageUrlSpec url := by
  intro url
  unfold validate_image_url validateImageUrlSpec
  by_cases h0 : url = []
  · subst h0
    rfl
  · rw [if_neg h0]
    have hne : url.isEmpty = false := by
      cases url with
      | nil => exact absurd rfl h0
      | cons a l => rfl
    rw [hne]
    simp only [Bool.not_false, Bool.true_and]
    cases hd : startsWithL url (chars "data:image/") with
    | true => simp [hd]
    | false =>
      rw [if_neg Bool.false_ne_true]
      simp only [Bool.false_or]
      cases hs : urlsplitModel url with
      | none => rfl
      | some p =>
        dsimp only
        by_cases hsc : p.1 = chars "http" ∨ p.1 = chars "https"
        case neg =>
          rw [if_pos hsc]
          push_neg at hsc
          simp [hsc.1, hsc.2]
        · rw [if_neg (not_not_intro hsc)]
          have hsc2 : (decide (p.1 = chars "http") || decide (p.1 = chars "https")) = true := by
            rcases hsc with h1 | h1 <;> simp [h1]
          rw [hsc2]
          simp only [Bool.true_and]
          cases hh : hostnameOfNetloc p.2 with
          | none => rfl
          | some h =>
            dsimp only
            by_cases hl : h = chars "localhost" ∨ h = chars "localhost.localdomain"
            · rw [if_pos hl]
              rcases hl with h1 | h1 <;> simp [h1]
            · rw [if_neg hl]
              push_neg at hl
              have hl2 : (decide (h = chars "localhost") ||
                  decide (h = chars "localhost.localdomain")) = false := by
                simp [hl.1, hl.2]
              rw [hl2]
              simp only [Bool.not_false, Bool.true_and]
              cases hip : parseIPv4 h with
              | none =>
                dsimp only
                cases hb : blockedHostnames.any (fun b => containsSub b h) with
                | true => simp [hb]
                | false => simp [hb]
              | some ip =>
                dsimp only
                cases hp : ipv4Private ip with
                | true => simp [hp]
                | false =>
                  cases hlo : ipv4Loopback ip with
                  | true => simp [hp, hlo]
                  | false =>
                    cases hll : ipv4LinkLocal ip with
                    | true => simp [hp, hlo, hll]
                    | false =>
                      cases hr : ipv4Reserved ip with
                      | true => simp [hp, hlo, hll, hr]
                      | false =>
                        cases hb : blockedHostnames.any (fun b => containsSub b h) with
                        | true => simp [hp, hlo, hll, hr, hb]
                        | false => simp [hp, hlo, hll, hr, hb]

/-- C10 counterexample: a data-image URI has no hostname, yet
`validate_image_url` returns `True` for it (the data-URI early return
precedes the hostname check) — so "a URL without a hostname returns
False" does not hold as stated. -/
theorem c10_counterexample :
    validate_image_url (chars "data:image/png;base64,AAAA") = true ∧
    urlHostname (chars "data:image/png;base64,AAAA") = none := by
  refine ⟨by decide, by decide⟩

/-- C10 amended: `validate_image_url` is total — on every string it
returns a boolean and never raises (any internal parse failure, such as
the unmatched-bracket `ValueError`, is caught and yields `False`); the
empty string returns `False`, and every URL that is not a data-image URI
and has no hostname (including every URL whose parse fails) returns
`False`.  Data-image URIs return `True` despite lacking a hostname. -/
theorem c10_amended :
    validate_image_url [] = false ∧
    (∀ url, validate_image_url url = true ∨ validate_image_url url = false) ∧
    (∀ url, startsWithL url (chars "data:image/") = false → urlHostname url = none →
      validate_image_url url = false) ∧
    (∀ url, startsWithL url (chars "data:image/") = true →
      validate_image_url url = true) := by
  refine ⟨by decide, ?_, ?_, ?_⟩
  · intro url
    cases h : validate_image_url url with
    | true => exact Or.inl rfl
    | false => exact Or.inr rfl
  · intro url hd hh
    unfold validate_image_url
    unfold urlHostname at hh
    by_cases h0 : url = []
    · rw [if_pos h0]
    · rw [if_neg h0, if_neg (by rw [hd]; exact Bool.false_ne_true)]
      cases hs : urlsplitModel url with
      | none => rfl
      | some p =>
        rw [hs] at hh
        dsimp only at hh
        dsimp only
        split
        · rfl
        · rw [hh]
  · intro url hd
    unfold validate_image_url
    rw [if_neg (by
      intro hcon
      rw [hcon] at hd
      exact Bool.noConfusion hd), if_pos hd]

/-- C10 witness: the no-hostname clause of the amended theorem applied to
`"http:///x"` (empty netloc) and to `"http://[abc/x"` (the unmatched
bracket that makes `urlparse` raise `ValueError`), and the data-URI
clause at a concrete data-image URI. -/
theorem c10_witness :
    validate_image_url (chars "http:///x") = false ∧
    validate_image_url (chars "http://[abc/x") = false ∧
    validate_image_url (chars "data:image/gif;base64,R0") = true := by
  refine ⟨c10_amended.2.2.1 (chars "http:///x") (by decide) (by decide),
    c10_amended.2.2.1 (chars "http://[abc/x") (by decide) (by decide),
    c10_amended.2.2.2 (chars "data:image/gif;base64,R0") (by decide)⟩

end MdSpec
